import Mathlib

/-!
Verification of the parameter-assignment core of this repository: the
Pattern Matcher, Parameter Handler resolution policy, Force Field Registry
loading and merging, and the Assignment Engine.  The repository snapshot
ships only the rule-document format (a SMIRNOFF XML test document), an
environment file and a notebook, so the components below are modelled from
the specification text and checked against the concrete rule document that
the repository does contain.
-/

namespace SMIRNOFF

/-- Modelled from the spec: a Topology Graph node.  The matcher and engine
code is missing from the snapshot; atoms carry element, formal charge,
aromaticity flag and ring membership as the spec data model requires. -/
structure Atom where
  element : Nat
  charge : Int
  arom : Bool
  inRing : Bool
deriving DecidableEq, Repr

/-- Modelled from the spec: a Topology Graph edge with bond order and
aromaticity flag, stored between the atom indices a and b. -/
structure Bond where
  a : Nat
  b : Nat
  order : Nat
  arom : Bool
deriving DecidableEq, Repr

/-- Modelled from the spec: the read-only Topology Graph, atoms in
canonical index order plus a bond list. -/
structure TopGraph where
  atoms : List Atom
  bonds : List Bond
deriving DecidableEq, Repr

/-- Modelled from the spec: the unique bond joining two atom indices, if
present (the graph is simple, so the first hit in the list is the bond). -/
def bondBetween (t : TopGraph) (x y : Nat) : Option Bond :=
  t.bonds.find? (fun bd => (bd.a == x && bd.b == y) || (bd.a == y && bd.b == x))

/-- Modelled from the spec: bond adjacency test, undirected. -/
def hasBond (t : TopGraph) (x y : Nat) : Bool := (bondBetween t x y).isSome

/-- Number of atoms of the topology. -/
def atomCount (t : TopGraph) : Nat := t.atoms.length

/-- Modelled from the spec: bonded neighbours of an atom, enumerated in
canonical atom index order so that no result depends on bond storage
order. -/
def nbrs (t : TopGraph) (a : Nat) : List Nat :=
  (List.range (atomCount t)).filter (fun b => b != a && hasBond t a b)

/-- Modelled from the spec: one alternative of an atom query, a closed
conjunction of optional element, valence (connection count), formal
charge, aromaticity and ring-membership predicates.  A SMIRKS atom
expression such as a comma-separated list is a list of such
alternatives. -/
structure AtomAlt where
  elem : Option Nat
  valence : Option Nat
  charge : Option Int
  arom : Option Bool
  ring : Option Bool
deriving DecidableEq, Repr

/-- Modelled from the spec: a bond query edge with optional bond order and
aromaticity predicates. -/
structure BondQ where
  order : Option Nat
  arom : Option Bool
deriving DecidableEq, Repr

mutual
/-- Modelled from the spec: a Chemical Environment Pattern, a hierarchical
tree of atom query nodes connected by bond query edges; tagged nodes
contribute to the returned atom tuple, and the recs field holds recursive
sub-environment patterns that constrain the node without binding atoms of
the tuple. -/
inductive Pat where
  | node (inB : BondQ) (alts : List AtomAlt) (tagged : Bool)
      (recs : PatList) (children : PatList) : Pat
/-- Modelled from the spec: a list of sibling pattern nodes. -/
inductive PatList where
  | pnil : PatList
  | pcons (p : Pat) (ps : PatList) : PatList
end

/-- Bond query sitting on the edge into a pattern node. -/
def Pat.inBondQ : Pat → BondQ
  | .node q _ _ _ _ => q

/-- Modelled from the spec: does one atom query alternative accept the
atom at index a of the topology. -/
def altPass (t : TopGraph) (x : AtomAlt) (a : Nat) : Bool :=
  match t.atoms.get? a with
  | none => false
  | some at1 =>
    (match x.elem with | none => true | some e => at1.element == e) &&
    (match x.valence with | none => true | some v => (nbrs t a).length == v) &&
    (match x.charge with | none => true | some c => at1.charge == c) &&
    (match x.arom with | none => true | some b => at1.arom == b) &&
    (match x.ring with | none => true | some b => at1.inRing == b)

/-- Modelled from the spec: an atom query accepts an atom when some
alternative does. -/
def atomPass (t : TopGraph) (alts : List AtomAlt) (a : Nat) : Bool :=
  alts.any (fun x => altPass t x a)

/-- Modelled from the spec: does a bond query accept a concrete bond. -/
def bondPass (q : BondQ) (bd : Bond) : Bool :=
  (match q.order with | none => true | some o => bd.order == o) &&
  (match q.arom with | none => true | some b => bd.arom == b)

mutual
/-- Modelled from the spec: the Pattern Matcher.  Rooted at atom a with a
list of already used atoms, it returns every embedding of the pattern
tree: each embedding lists, in pre-order, the graph atoms assigned to the
pattern nodes.  Recursive sub-environment predicates are evaluated by
recursively invoking the matcher at the candidate atom and requiring at
least one embedding.  A failed match is the empty list, never an error. -/
def matchPat (t : TopGraph) : Pat → Nat → List Nat → List (List Nat)
  | .node _ alts _ recs children, a, used =>
    if !used.contains a && atomPass t alts a && recsOk t recs a then
      (matchChildren t children a (nbrs t a) (a :: used)).map (a :: ·)
    else []
/-- Modelled from the spec: recursive sub-environment check, requiring at
least one embedding of every sub-pattern rooted at the candidate atom. -/
def recsOk (t : TopGraph) : PatList → Nat → Bool
  | .pnil, _ => true
  | .pcons p rest, a => !(matchPat t p a []).isEmpty && recsOk t rest a
/-- Modelled from the spec: match the child sub-trees of a node against
distinct bonded neighbours of the parent atom, checking the bond query of
each child edge. -/
def matchChildren (t : TopGraph) : PatList → Nat → List Nat → List Nat → List (List Nat)
  | .pnil, _, _, _ => [[]]
  | .pcons p rest, par, cand, used =>
    cand.flatMap (fun b =>
      match bondBetween t par b with
      | none => []
      | some bd =>
        if bondPass p.inBondQ bd then
          (matchPat t p b used).flatMap (fun emb =>
            (matchChildren t rest par cand (used ++ emb)).map (fun e2 => emb ++ e2))
        else [])
end

mutual
/-- Tag flags of the pattern nodes in pre-order (recursive sub-environment
nodes bind no tuple atoms and are excluded). -/
def tagsP : Pat → List Bool
  | .node _ _ tg _ ch => tg :: tagsL ch
/-- Tag flags of a node list in pre-order. -/
def tagsL : PatList → List Bool
  | .pnil => []
  | .pcons p ps => tagsP p ++ tagsL ps
end

/-- Modelled from the spec: restrict a pre-order embedding to the tagged
pattern nodes, giving the atom-index tuple reported for a match. -/
def tupleOf (p : Pat) (emb : List Nat) : List Nat :=
  ((tagsP p).zip emb).filterMap (fun pr => if pr.1 then some pr.2 else none)

/-- Modelled from the spec: all matches of a pattern against a topology,
as atom-index tuples of the tagged nodes, enumerated from every root atom
in canonical index order. -/
def findMatches (p : Pat) (t : TopGraph) : List (List Nat) :=
  ((List.range (atomCount t)).flatMap (fun a => matchPat t p a [])).map (tupleOf p)

/-- Modelled from the spec: the distance parameter convention of a vdW
rule entry, either sigma or rmin half (half the minimum-energy
distance). -/
inductive DistParam where
  | sigma (v : ℚ)
  | rminHalf (v : ℚ)
deriving DecidableEq, Repr

/-- Modelled from the spec: a Parameter Rule, a pattern together with the
rule identifier and its numeric parameter values; vdW rules additionally
carry the declared distance parameter. -/
structure Rule where
  pat : Pat
  ident : String
  values : List (String × ℚ)
  dist : Option DistParam

/-- Modelled from the spec: a structural element (atom-index tuple) is
matched by a rule when the tuple is among the matches of the rule
pattern. -/
def ruleMatches (t : TopGraph) (r : Rule) (e : List Nat) : Bool :=
  (findMatches r.pat t).contains e

/-- Modelled from the spec: resolution over one handler rule list.  The
rules are evaluated in declaration order and the accumulator records the
last rule so far whose pattern matches the element, so later rules
override earlier ones. -/
def resolve (t : TopGraph) (e : List Nat) (rules : List Rule) : Option Rule :=
  rules.foldl (fun acc r => if ruleMatches t r e then some r else acc) none

/-- Modelled from the spec: the interaction classes that own a Parameter
Handler. -/
inductive HandlerClass where
  | bonds
  | angles
  | properTorsions
  | improperTorsions
  | vdW
deriving DecidableEq, Repr

/-- Modelled from the spec: a Parameter Handler, an ordered rule list for
one interaction class plus the handler-scoped near-neighbour scale
factors of nonbonded handlers. -/
structure Handler where
  cls : HandlerClass
  rules : List Rule
  scale12 : ℚ
  scale13 : ℚ
  scale14 : ℚ
  scale15 : ℚ

/-- Modelled from the spec: the Force Field Registry, an ordered
collection of Parameter Handlers in document order. -/
structure Registry where
  handlers : List Handler

/-- Handler lookup by interaction class. -/
def findHandler (r : Registry) (c : HandlerClass) : Option Handler :=
  r.handlers.find? (fun h => h.cls == c)

/-- Modelled from the spec: mandatory handlers (bonds, angles, vdW and
proper torsions) must cover every structural element; improper torsions
are optional and may apply to zero centers. -/
def mandatory : HandlerClass → Bool
  | .improperTorsions => false
  | _ => true

/-- Modelled from the spec: errors of the Assignment Engine; an
unassigned-parameter coverage error names the interaction class and the
atom indices of the unmatched structural element. -/
inductive AssignError where
  | unassigned (cls : HandlerClass) (atoms : List Nat)
deriving Repr

/-- Modelled from the spec: enumeration of the structural elements of one
interaction class, in canonical atom index order: atoms for vdW, graph
edges for bonds, length-2 paths for angles (collapsed to the orientation
with smaller first endpoint), length-3 paths for proper torsions
(collapsed to the orientation with the smaller inner pair), and trefoil
triples of neighbours around each center with at least three neighbours
for impropers. -/
def elementsFor (cls : HandlerClass) (t : TopGraph) : List (List Nat) :=
  let n := atomCount t
  match cls with
  | .vdW => (List.range n).map (fun i => [i])
  | .bonds =>
    (List.range n).flatMap (fun i =>
      (List.range n).filterMap (fun j =>
        if i < j && hasBond t i j then some [i, j] else none))
  | .angles =>
    (List.range n).flatMap (fun i =>
      (List.range n).flatMap (fun j =>
        (List.range n).filterMap (fun k =>
          if i < k && i != j && j != k && hasBond t i j && hasBond t j k then
            some [i, j, k] else none)))
  | .properTorsions =>
    (List.range n).flatMap (fun i =>
      (List.range n).flatMap (fun j =>
        (List.range n).flatMap (fun k =>
          (List.range n).filterMap (fun l =>
            if j < k && i != j && i != k && i != l && j != l && k != l &&
                hasBond t i j && hasBond t j k && hasBond t k l then
              some [i, j, k, l] else none))))
  | .improperTorsions =>
    (List.range n).flatMap (fun c =>
      (List.range n).flatMap (fun i =>
        (List.range n).flatMap (fun j =>
          (List.range n).filterMap (fun k =>
            if i < j && j < k && i != c && j != c && k != c &&
                hasBond t c i && hasBond t c j && hasBond t c k then
              some [i, c, j, k] else none))))

/-- Modelled from the spec: per-element assignment for one handler.  Each
element resolves to the last matching rule; an element with zero matching
rules is a coverage error for a mandatory class and is silently skipped
for an optional class. -/
def assignElems (t : TopGraph) (cls : HandlerClass) (rules : List Rule) :
    List (List Nat) → Except AssignError (List (List Nat × Rule))
  | [] => .ok []
  | e :: rest =>
    match resolve t e rules with
    | some r => (assignElems t cls rules rest).map (fun l => (e, r) :: l)
    | none =>
      if mandatory cls then .error (.unassigned cls e)
      else assignElems t cls rules rest

/-- Modelled from the spec: matching and resolution of one handler over
all structural elements of its interaction class. -/
def assignHandler (t : TopGraph) (h : Handler) :
    Except AssignError (List (List Nat × Rule)) :=
  assignElems t h.cls h.rules (elementsFor h.cls t)

/-- The Resolved Parameter Assignment: per handler class, the winning rule
of every structural element. -/
abbrev EngineOut := List (HandlerClass × List (List Nat × Rule))

/-- Modelled from the spec: the Assignment Engine loop over the handlers
of the registry in document order, failing on the first coverage error. -/
def engineRaw (tc : TopGraph) : List Handler → Except AssignError EngineOut
  | [] => .ok []
  | h :: hs =>
    match assignHandler tc h with
    | .error e => .error e
    | .ok out => (engineRaw tc hs).map (fun l => (h.cls, out) :: l)

/-- Injective scalar key of a bond, used to canonicalize the bond list. -/
def bondKey (bd : Bond) : Nat :=
  Nat.pair bd.a (Nat.pair bd.b (Nat.pair bd.order (cond bd.arom 1 0)))

/-- Total Boolean order on bonds through the injective key. -/
def bondLe (b1 b2 : Bond) : Bool := bondKey b1 ≤ bondKey b2

/-- Modelled from the spec: canonicalization of the Topology Graph before
assignment, sorting the bond list so that every enumeration follows the
canonical atom index order and no result depends on the iteration order of
the underlying storage. -/
def canonTop (t : TopGraph) : TopGraph :=
  ⟨t.atoms, t.bonds.mergeSort bondLe⟩

/-- Modelled from the spec: the Assignment Engine, a pure transform from a
Topology Graph and a Force Field Registry to a Resolved Parameter
Assignment. -/
def assignEngine (t : TopGraph) (r : Registry) : Except AssignError EngineOut :=
  engineRaw (canonTop t) r.handlers

/-- Modelled from the spec: the engine loop written with the caller-owned
topology and registry threaded through as explicit state, reading them at
every step and never writing them. -/
def engineLoopS (tc : TopGraph) :
    TopGraph → Registry → List Handler →
      (Except AssignError EngineOut) × TopGraph × Registry
  | t, r, [] => (.ok [], t, r)
  | t, r, h :: hs =>
    match assignHandler tc h with
    | .error e => (.error e, t, r)
    | .ok out =>
      let s2 := engineLoopS tc t r hs
      ((s2.1).map (fun l => (h.cls, out) :: l), s2.2)

/-- Modelled from the spec: the Assignment Engine as a state-threading
procedure over the caller-owned inputs, returning the assignment together
with the topology and registry state after the call. -/
def assignEngineS (t : TopGraph) (r : Registry) :
    (Except AssignError EngineOut) × TopGraph × Registry :=
  engineLoopS (canonTop t) t r r.handlers

/-- Modelled from the spec: existence of a bonded walk of exactly the
given length between two atoms. -/
def hasWalk (t : TopGraph) : Nat → Nat → Nat → Bool
  | 0, x, y => x == y
  | n + 1, x, y => (nbrs t x).any (fun c => hasWalk t n c y)

/-- Modelled from the spec: the shortest-path-in-bonds distance between
two atoms, the least walk length realizing the pair, computed once per
topology. -/
def bondDist (t : TopGraph) (x y : Nat) : Option Nat :=
  (List.range (atomCount t + 1)).find? (fun n => hasWalk t n x y)

/-- Modelled from the spec: the nonbonded scale factor of an atom pair,
selected from the handler-scoped factors by the shortest-path-in-bonds
distance: one bond selects the 1-2 factor, two bonds the 1-3 factor,
three bonds the 1-4 factor, four bonds the 1-5 factor, and every larger
or unreachable separation is not reduced at all. -/
def pairScale (h : Handler) (t : TopGraph) (x y : Nat) : ℚ :=
  match bondDist t x y with
  | some 1 => h.scale12
  | some 2 => h.scale13
  | some 3 => h.scale14
  | some 4 => h.scale15
  | _ => 1

/-- Modelled from the spec: merging two handlers of the same interaction
class appends the rules of the second after the rules of the first,
extending precedence. -/
def mergeHandlers (h1 h2 : Handler) : Handler :=
  { h1 with rules := h1.rules ++ h2.rules }

/-- Modelled from the spec: registry composition.  Rules of the second
registry are appended after the rules of the first within each handler
class, and handlers of classes new to the first registry are appended
after its handlers. -/
def mergeRegistry (r1 r2 : Registry) : Registry :=
  ⟨(r1.handlers.map (fun h =>
      match findHandler r2 h.cls with
      | some h2 => mergeHandlers h h2
      | none => h))
    ++ r2.handlers.filter (fun h2 => (findHandler r1 h2.cls).isNone)⟩

mutual
/-- Modelled from the spec: a pattern as written in a rule document, where
a recursive sub-environment may also be a named reference to another
pattern of the document environment; the loader must resolve references
and reject a pattern that references itself before load completes. -/
inductive RawPat where
  | ref (name : String) : RawPat
  | node (inB : BondQ) (alts : List AtomAlt) (tagged : Bool)
      (recs : RawPatList) (children : RawPatList) : RawPat
/-- Modelled from the spec: a list of sibling raw pattern nodes. -/
inductive RawPatList where
  | rnil : RawPatList
  | rcons (p : RawPat) (ps : RawPatList) : RawPatList
end

mutual
/-- Does a raw pattern mention a named reference anywhere. -/
def mentions : RawPat → String → Bool
  | .ref n, name => n == name
  | .node _ _ _ recs children, name =>
    mentionsL recs name || mentionsL children name
/-- Does a raw pattern list mention a named reference anywhere. -/
def mentionsL : RawPatList → String → Bool
  | .rnil, _ => false
  | .rcons p ps, name => mentions p name || mentionsL ps name
end

mutual
/-- Size of a raw pattern, used to choose sufficient resolution fuel. -/
def rawSize : RawPat → Nat
  | .ref _ => 1
  | .node _ _ _ recs children => 1 + rawSizeL recs + rawSizeL children
/-- Size of a raw pattern list. -/
def rawSizeL : RawPatList → Nat
  | .rnil => 0
  | .rcons p ps => rawSize p + rawSizeL ps
end

/-- Named pattern lookup in the document environment. -/
def lookupEnv (env : List (String × RawPat)) (n : String) : Option RawPat :=
  (env.find? (fun pr => pr.1 == n)).map (fun pr => pr.2)

/-- Modelled from the spec: load-time error taxonomy of the Force Field
Registry parser; any such error rejects the entire load. -/
inductive LoadError where
  | tagMismatch (tag : String)
  | unsupportedVersion (v : String)
  | duplicateRuleId (tag : String)
  | inconsistentUnits (tag : String)
  | badPattern (name : String)
  | badVdwEntry (id : String)
deriving DecidableEq, Repr

mutual
/-- Modelled from the spec: reference resolution of a raw pattern.  The
seen list holds the names already being resolved on the current chain; a
reference to a seen name is a self-reference and is rejected.  The fuel
argument only bounds the recursion and is chosen large enough by the
loader. -/
def resolveRawF (env : List (String × RawPat)) :
    Nat → List String → RawPat → Except LoadError Pat
  | 0, _, _ => .error (.badPattern "fuel")
  | fuel + 1, seen, .ref n =>
    if seen.contains n then .error (.badPattern n)
    else
      match lookupEnv env n with
      | none => .error (.badPattern n)
      | some rp => resolveRawF env fuel (n :: seen) rp
  | fuel + 1, seen, .node q alts tg recs children =>
    match resolveListF env fuel seen recs with
    | .error e => .error e
    | .ok recs2 =>
      match resolveListF env fuel seen children with
      | .error e => .error e
      | .ok ch2 => .ok (.node q alts tg recs2 ch2)
/-- Modelled from the spec: reference resolution of a raw pattern list. -/
def resolveListF (env : List (String × RawPat)) :
    Nat → List String → RawPatList → Except LoadError PatList
  | 0, _, _ => .error (.badPattern "fuel")
  | _ + 1, _, .rnil => .ok .pnil
  | fuel + 1, seen, .rcons p ps =>
    match resolveRawF env fuel seen p with
    | .error e => .error e
    | .ok p2 =>
      match resolveListF env fuel seen ps with
      | .error e => .error e
      | .ok ps2 => .ok (.pcons p2 ps2)
end

/-- Total size of the document environment patterns. -/
def envSize (env : List (String × RawPat)) : Nat :=
  (env.map (fun pr => rawSize pr.2)).sum

/-- Resolution fuel that always suffices for a pattern that does not loop:
every descent consumes one unit and every reference hop pastes in one
environment pattern at most once per chain. -/
def fuelFor (env : List (String × RawPat)) (rp : RawPat) : Nat :=
  2 * (envSize env + rawSize rp + 1) * (env.length + 1)

/-- Modelled from the spec: one rule entry of a rule document section, an
identifier, a pattern and the numeric parameter values. -/
structure RawEntry where
  ident : String
  rpat : RawPat
  values : List (String × ℚ)

/-- Modelled from the spec: one interaction-class section of a rule
document, with its opening and closing tags, the unit declarations and
scale attributes of the section, and its ordered rule entries. -/
structure RawSection where
  openTag : String
  closeTag : String
  units : List (String × String)
  scales : List (String × ℚ)
  entries : List RawEntry

/-- Modelled from the spec: a versioned rule document, an ordered list of
sections together with a named-pattern environment. -/
structure RawDoc where
  version : String
  env : List (String × RawPat)
  sections : List RawSection

/-- Are the strings of the list pairwise distinct. -/
def distinctStrs : List String → Bool
  | [] => true
  | s :: rest => !rest.contains s && distinctStrs rest

/-- Modelled from the spec: the section tags of the document format and
the handler class of each. -/
def classOfTag : String → Option HandlerClass
  | "Bonds" => some .bonds
  | "Angles" => some .angles
  | "ProperTorsions" => some .properTorsions
  | "ImproperTorsions" => some .improperTorsions
  | "vdW" => some .vdW
  | _ => none

/-- Numeric attribute lookup with a default. -/
def getQ (l : List (String × ℚ)) (k : String) (d : ℚ) : ℚ :=
  match l.find? (fun pr => pr.1 == k) with
  | some pr => pr.2
  | none => d

/-- Modelled from the spec: the declared distance parameter of a vdW rule
entry, given by exactly one of the sigma and rmin half fields. -/
def mkVdwDist (id : String) (vals : List (String × ℚ)) : Except LoadError DistParam :=
  match (vals.find? (fun pr => pr.1 == "sigma")),
      (vals.find? (fun pr => pr.1 == "rmin_half")) with
  | some pr, none => .ok (.sigma pr.2)
  | none, some pr => .ok (.rminHalf pr.2)
  | _, _ => .error (.badVdwEntry id)

/-- Modelled from the spec: the sixth power of the sigma value seen by
downstream resolution, the single consistent distance parameter both
conventions are converted to.  Sixth powers keep the conversion exact:
with r0 the minimum-energy distance, r0 = 2 ^ (1 / 6) * sigma is the same
as r0 ^ 6 = 2 * sigma ^ 6, and r0 = 2 * rminHalf gives
sigma ^ 6 = 32 * rminHalf ^ 6. -/
def sigma6Of : DistParam → ℚ
  | .sigma s => s ^ 6
  | .rminHalf q => 32 * q ^ 6

/-- Modelled from the spec: parse one rule entry, resolving its pattern
and, for a vdW section, its declared distance parameter. -/
def checkEntry (env : List (String × RawPat)) (cls : HandlerClass)
    (e : RawEntry) : Except LoadError Rule :=
  match resolveRawF env (fuelFor env e.rpat) [] e.rpat with
  | .error er => .error er
  | .ok p =>
    match cls with
    | .vdW =>
      match mkVdwDist e.ident e.values with
      | .error er => .error er
      | .ok d => .ok ⟨p, e.ident, e.values, some d⟩
    | _ => .ok ⟨p, e.ident, e.values, none⟩

/-- Parse the ordered entries of one section, failing on the first bad
entry. -/
def checkEntries (env : List (String × RawPat)) (cls : HandlerClass) :
    List RawEntry → Except LoadError (List Rule)
  | [] => .ok []
  | e :: es =>
    match checkEntry env cls e with
    | .error er => .error er
    | .ok r => (checkEntries env cls es).map (fun l => r :: l)

/-- Modelled from the spec: validation and parsing of one document
section: the closing tag must equal the opening tag, the tag must name a
known interaction class, rule identifiers must be unique within the
section, the unit declarations must be consistent (a single declaration
per unit kind), and every entry must parse. -/
def checkSection (env : List (String × RawPat)) (s : RawSection) :
    Except LoadError Handler :=
  if s.openTag != s.closeTag then .error (.tagMismatch s.openTag)
  else
    match classOfTag s.openTag with
    | none => .error (.tagMismatch s.openTag)
    | some cls =>
      if !distinctStrs (s.entries.map (fun e => e.ident)) then
        .error (.duplicateRuleId s.openTag)
      else if !distinctStrs (s.units.map (fun pr => pr.1)) then
        .error (.inconsistentUnits s.openTag)
      else
        match checkEntries env cls s.entries with
        | .error er => .error er
        | .ok rules =>
          .ok ⟨cls, rules, getQ s.scales "scale12" 0, getQ s.scales "scale13" 0,
            getQ s.scales "scale14" (1 / 2), getQ s.scales "scale15" 1⟩

/-- Parse the ordered sections of a document, failing on the first bad
section so that no partial registry is ever produced. -/
def loadSections (env : List (String × RawPat)) :
    List RawSection → Except LoadError (List Handler)
  | [] => .ok []
  | s :: ss =>
    match checkSection env s with
    | .error e => .error e
    | .ok h => (loadSections env ss).map (fun l => h :: l)

/-- Modelled from the spec: validation of the named-pattern environment;
every named pattern must resolve with itself marked as seen, so a pattern
that references itself is rejected before load completes. -/
def checkEnv (env : List (String × RawPat)) :
    List (String × RawPat) → Except LoadError Unit
  | [] => .ok ()
  | (n, rp) :: rest =>
    match resolveRawF env (fuelFor env rp) [n] rp with
    | .error e => .error e
    | .ok _ => checkEnv env rest

/-- Modelled from the spec: the document format versions the loader
understands; any other version is a load-time rejection. -/
def supportedVersions : List String := ["0.1", "0.2", "0.3"]

/-- Modelled from the spec: loading a rule document into a Force Field
Registry.  The version is checked first, then the named-pattern
environment, then every section in order; any failure rejects the whole
load and produces no registry at all. -/
def loadDocument (d : RawDoc) : Except LoadError Registry :=
  if !(supportedVersions.contains d.version) then
    .error (.unsupportedVersion d.version)
  else
    match checkEnv d.env d.env with
    | .error e => .error e
    | .ok _ =>
      match loadSections d.env d.sections with
      | .error e => .error e
      | .ok hs => .ok ⟨hs⟩

/-- Is an Except value a success. -/
def isOkE {ε α : Type} : Except ε α → Bool
  | .ok _ => true
  | .error _ => false

/-- The declared distance parameters of the loaded vdW rules of a
document, when the document loads. -/
def loadedDists (d : RawDoc) : Option (List (Option DistParam)) :=
  match loadDocument d with
  | .ok reg => (findHandler reg .vdW).map (fun h => h.rules.map (fun r => r.dist))
  | .error _ => none

mutual
/-- Modelled from the spec: declared nesting of the recursive
sub-environments of a pattern, the bound on the recursion depth of their
evaluation. -/
def patNest : Pat → Nat
  | .node _ _ _ recs children => max (1 + patNestL recs) (patNestL children)
/-- Declared nesting over a node list. -/
def patNestL : PatList → Nat
  | .pnil => 0
  | .pcons p ps => max (patNest p) (patNestL ps)
end

mutual
/-- Modelled from the spec: the Pattern Matcher with an explicit bound on
the recursion depth of recursive sub-environment evaluation; one unit of
fuel is consumed at each sub-environment descent. -/
def matchPatF (t : TopGraph) : Nat → Pat → Nat → List Nat → List (List Nat)
  | fuel, .node _ alts _ recs children, a, used =>
    if !used.contains a && atomPass t alts a && recsOkF t fuel recs a then
      (matchChildrenF t fuel children a (nbrs t a) (a :: used)).map (a :: ·)
    else []
/-- Depth-bounded recursive sub-environment check. -/
def recsOkF (t : TopGraph) : Nat → PatList → Nat → Bool
  | _, .pnil, _ => true
  | fuel, .pcons p rest, a =>
    (match fuel with
     | 0 => false
     | f + 1 => !(matchPatF t f p a []).isEmpty) && recsOkF t fuel rest a
/-- Depth-bounded matching of child sub-trees. -/
def matchChildrenF (t : TopGraph) : Nat → PatList → Nat → List Nat → List Nat → List (List Nat)
  | _, .pnil, _, _, _ => [[]]
  | fuel, .pcons p rest, par, cand, used =>
    cand.flatMap (fun b =>
      match bondBetween t par b with
      | none => []
      | some bd =>
        if bondPass p.inBondQ bd then
          (matchPatF t fuel p b used).flatMap (fun emb =>
            (matchChildrenF t fuel rest par cand (used ++ emb)).map (fun e2 => emb ++ e2))
        else [])
end

/-- Bond query of a plain single bond, written - in a pattern. -/
def singleB : BondQ := ⟨some 1, some false⟩

/-- Bond query matching any bond, written ~ in a pattern. -/
def anyB : BondQ := ⟨none, none⟩

/-- Atom query alternative matching any atom, written * in a pattern. -/
def altAny : AtomAlt := ⟨none, none, none, none, none⟩

/-- Atom query alternative fixing the element. -/
def altE (e : Nat) : AtomAlt := ⟨some e, none, none, none, none⟩

/-- Atom query alternative fixing element and connection count. -/
def altEX (e v : Nat) : AtomAlt := ⟨some e, some v, none, none, none⟩

/-- Atom query alternative fixing element, connection count and formal
charge. -/
def altEXC (e v : Nat) (c : Int) : AtomAlt := ⟨some e, some v, some c, none, none⟩

mutual
/-- Embed a resolved pattern back into document syntax (no references). -/
def rawOf : Pat → RawPat
  | .node q alts tg recs ch => .node q alts tg (rawOfL recs) (rawOfL ch)
/-- Embed a resolved node list into document syntax. -/
def rawOfL : PatList → RawPatList
  | .pnil => .rnil
  | .pcons p ps => .rcons (rawOf p) (rawOfL ps)
end

/-- Pattern of rule b86 of the bundled document, written
[#7:1]-[#1:2]. -/
def patB86 : Pat :=
  .node anyB [altE 7] true .pnil
    (.pcons (.node singleB [altE 1] true .pnil .pnil) .pnil)

/-- The nitrogen atom query of the bundled angle rules, written
[#7X4,#7X3,#7X2-1]. -/
def nitroAlts : List AtomAlt := [altEX 7 4, altEX 7 3, altEXC 7 2 (-1)]

/-- Pattern of rule a17 of the bundled document, written
[*:1]-[#7X4,#7X3,#7X2-1:2]-[*:3]. -/
def patA17 : Pat :=
  .node anyB [altAny] true .pnil
    (.pcons
      (.node singleB nitroAlts true .pnil
        (.pcons (.node singleB [altAny] true .pnil .pnil) .pnil))
      .pnil)

/-- Pattern of rule a18 of the bundled document, written
[#1:1]-[#7X4,#7X3,#7X2-1:2]-[*:3]. -/
def patA18 : Pat :=
  .node anyB [altE 1] true .pnil
    (.pcons
      (.node singleB nitroAlts true .pnil
        (.pcons (.node singleB [altAny] true .pnil .pnil) .pnil))
      .pnil)

/-- Pattern of rule i3 of the bundled document, written
[#1:1]~[#7X3:2](~[#1:3])~[#1:4]. -/
def patI3 : Pat :=
  .node anyB [altE 1] true .pnil
    (.pcons
      (.node anyB [altEX 7 3] true .pnil
        (.pcons (.node anyB [altE 1] true .pnil .pnil)
          (.pcons (.node anyB [altE 1] true .pnil .pnil) .pnil)))
      .pnil)

/-- Pattern of vdW rule n1 of the bundled document, written [#1:1]. -/
def patN1 : Pat := .node anyB [altE 1] true .pnil .pnil

/-- Pattern of vdW rule n11 of the bundled document, written
[#1:1]-[#7]. -/
def patN11 : Pat :=
  .node anyB [altE 1] true .pnil
    (.pcons (.node singleB [altE 7] false .pnil .pnil) .pnil)

/-- Pattern of vdW rule n20 of the bundled document, written [#7:1]. -/
def patN20 : Pat := .node anyB [altE 7] true .pnil .pnil

/-- The Bonds section of the bundled test document. -/
def bondsSec : RawSection :=
  ⟨"Bonds", "Bonds",
   [("length_unit", "angstroms"), ("k_unit", "kilocalories_per_mole/angstrom**2")],
   [],
   [⟨"b86", rawOf patB86, [("k", 868), ("length", 101 / 100)]⟩]⟩

/-- The Angles section of the bundled test document; the generic rule a17
is declared before the more specific rule a18. -/
def anglesSec : RawSection :=
  ⟨"Angles", "Angles",
   [("angle_unit", "degrees"), ("k_unit", "kilocalories_per_mole/radian**2")],
   [],
   [⟨"a17", rawOf patA17, [("angle", 219 / 2), ("k", 140)]⟩,
    ⟨"a18", rawOf patA18, [("angle", 219 / 2), ("k", 100)]⟩]⟩

/-- The ImproperTorsions section of the bundled test document.  In the
shipped file the section is closed by the misspelled tag
ImproperTosions, which the loader must reject as a syntax error. -/
def improperSec : RawSection :=
  ⟨"ImproperTorsions", "ImproperTosions",
   [("phase_unit", "degrees"), ("k_unit", "kilocalories_per_mole")],
   [],
   [⟨"i3", rawOf patI3, [("k1", 100), ("periodicity1", 2), ("phase1", 150)]⟩]⟩

/-- The vdW section of the bundled test document; every entry declares its
distance parameter through the rmin half convention. -/
def vdwSec : RawSection :=
  ⟨"vdW", "vdW",
   [("sigma_unit", "angstroms"), ("epsilon_unit", "kilocalories_per_mole")],
   [("scale12", 0), ("scale13", 0), ("scale14", 1 / 2), ("scale15", 1)],
   [⟨"n1", rawOf patN1, [("epsilon", 157 / 10000), ("rmin_half", 3 / 5)]⟩,
    ⟨"n11", rawOf patN11, [("epsilon", 157 / 10000), ("rmin_half", 3 / 5)]⟩,
    ⟨"n20", rawOf patN20, [("epsilon", 17 / 100), ("rmin_half", 228 / 125)]⟩]⟩

/-- The bundled SMIRNOFF test document of the repository, version 0.2,
with its four sections in file order; its ImproperTorsions section is
closed by a misspelled tag. -/
def bundledDoc : RawDoc :=
  ⟨"0.2", [], [bondsSec, anglesSec, improperSec, vdwSec]⟩

/-- A well-formed rule document whose vdW rules all use the rmin half
convention for the distance parameter, taken verbatim from the vdW
section of the bundled test document. -/
def vdwDoc : RawDoc := ⟨"0.2", [], [vdwSec]⟩

/-- Angle rule a17 of the bundled document. -/
def a17R : Rule := ⟨patA17, "a17", [("angle", 219 / 2), ("k", 140)], none⟩

/-- Angle rule a18 of the bundled document. -/
def a18R : Rule := ⟨patA18, "a18", [("angle", 219 / 2), ("k", 100)], none⟩

/-- vdW rule n1 of the bundled document. -/
def n1R : Rule :=
  ⟨patN1, "n1", [("epsilon", 157 / 10000)], some (.rminHalf (3 / 5))⟩

/-- vdW rule n11 of the bundled document. -/
def n11R : Rule :=
  ⟨patN11, "n11", [("epsilon", 157 / 10000)], some (.rminHalf (3 / 5))⟩

/-- vdW rule n20 of the bundled document. -/
def n20R : Rule :=
  ⟨patN20, "n20", [("epsilon", 17 / 100)], some (.rminHalf (228 / 125))⟩

/-- A neutral non-aromatic acyclic atom of the given element. -/
def plainAtom (e : Nat) : Atom := ⟨e, 0, false, false⟩

/-- A plain single bond between two atom indices. -/
def sBond (x y : Nat) : Bond := ⟨x, y, 1, false⟩

/-- Methylamine: carbon 0, nitrogen 1, hydrogens 2, 3 and 4 on the
carbon, hydrogens 5 and 6 on the nitrogen. -/
def ch3nh2 : TopGraph :=
  ⟨[plainAtom 6, plainAtom 7, plainAtom 1, plainAtom 1, plainAtom 1,
    plainAtom 1, plainAtom 1],
   [sBond 0 1, sBond 0 2, sBond 0 3, sBond 0 4, sBond 1 5, sBond 1 6]⟩

/-- A chain of seven carbon atoms, so that atoms 0 and 6 are separated by
exactly six bonds. -/
def chain7 : TopGraph :=
  ⟨[plainAtom 6, plainAtom 6, plainAtom 6, plainAtom 6, plainAtom 6,
    plainAtom 6, plainAtom 6],
   [sBond 0 1, sBond 1 2, sBond 2 3, sBond 3 4, sBond 4 5, sBond 5 6]⟩

lemma getLast?_cons_elim {α : Type} (x : α) (l : List α) :
    (x :: l).getLast? = (l.getLast?).elim (some x) some := by
  induction l generalizing x with
  | nil => rfl
  | cons y ys ih =>
    rw [List.getLast?_cons_cons, ih y]
    cases h : ys.getLast? with
    | none => simp [ih y, h]
    | some z => simp [ih y, h]

lemma resolve_foldl (t : TopGraph) (e : List Nat) :
    ∀ (rules : List Rule) (acc : Option Rule),
      rules.foldl (fun acc r => if ruleMatches t r e then some r else acc) acc
        = ((rules.filter (fun r => ruleMatches t r e)).getLast?).elim acc some := by
  intro rules
  induction rules with
  | nil => intro acc; rfl
  | cons r rest ih =>
    intro acc
    rw [List.foldl_cons, List.filter_cons]
    cases hm : ruleMatches t r e with
    | false => simp only [hm, Bool.false_eq_true, if_false, ih]
    | true =>
      simp only [hm, if_true, ih, getLast?_cons_elim]
      cases h2 : (rest.filter (fun r => ruleMatches t r e)).getLast? with
      | none => rfl
      | some z => rfl

/-- Claim C1: resolution evaluates the rules of a handler in declaration
order and assigns the last rule whose pattern matches the element; in
particular, for a generic rule P1 declared before a more specific rule
P2, an element matched by both resolves to P2 and an element matched only
by P1 resolves to P1. -/
theorem resolution_last_match_wins :
    (∀ (h : Handler) (t : TopGraph) (e : List Nat),
      resolve t e h.rules = (h.rules.filter (fun r => ruleMatches t r e)).getLast?)
    ∧ (∀ (P1 P2 : Rule) (t : TopGraph) (e e' : List Nat),
      ruleMatches t P1 e = true → ruleMatches t P2 e = true →
      ruleMatches t P1 e' = true → ruleMatches t P2 e' = false →
      resolve t e [P1, P2] = some P2 ∧ resolve t e' [P1, P2] = some P1) := by
  constructor
  · intro h t e
    rw [resolve, resolve_foldl]
    cases hL : (h.rules.filter (fun r => ruleMatches t r e)).getLast? with
    | none => rfl
    | some z => rfl
  · intro P1 P2 t e e' h1 h2 h1' h2'
    constructor
    · simp [resolve, h1, h2]
    · simp [resolve, h1', h2']

/-- Witness for claim C1 on the bundled angle rules over methylamine: the
angle 5-1-6 (H-N-H) is matched by the generic a17 and the specific a18
and resolves to a18, while the angle 0-1-5 (C-N-H) is matched only by a17
and resolves to a17. -/
theorem resolution_last_match_wins_witness :
    resolve ch3nh2 [5, 1, 6] [a17R, a18R] = some a18R ∧
    resolve ch3nh2 [0, 1, 5] [a17R, a18R] = some a17R :=
  resolution_last_match_wins.2 a17R a18R ch3nh2 [5, 1, 6] [0, 1, 5]
    (by decide) (by decide) (by decide) (by decide)

lemma resolve_eq_getLast (t : TopGraph) (e : List Nat) (rules : List Rule) :
    resolve t e rules = (rules.filter (fun r => ruleMatches t r e)).getLast? := by
  rw [resolve, resolve_foldl]
  cases hL : (rules.filter (fun r => ruleMatches t r e)).getLast? with
  | none => rfl
  | some z => rfl

/-- The per-handler merge map of mergeRegistry keeps the handler class. -/
lemma mergeMap_cls (r2 : Registry) (h : Handler) :
    (match findHandler r2 h.cls with
     | some h2 => mergeHandlers h h2
     | none => h).cls = h.cls := by
  cases findHandler r2 h.cls with
  | none => rfl
  | some h2 => rfl

lemma findHandler_merge (r1 r2 : Registry) (c : HandlerClass) (h1 h2 : Handler)
    (e1 : findHandler r1 c = some h1) (e2 : findHandler r2 c = some h2) :
    findHandler (mergeRegistry r1 r2) c = some (mergeHandlers h1 h2) := by
  have hcls : h1.cls = c := by
    have := List.find?_some e1
    exact beq_iff_eq.mp this
  rw [findHandler, mergeRegistry]
  rw [List.find?_append, List.find?_map]
  have hpred : ((fun h : Handler => h.cls == c) ∘
      (fun h : Handler =>
        match findHandler r2 h.cls with
        | some h2 => mergeHandlers h h2
        | none => h))
      = (fun h : Handler => h.cls == c) := by
    funext h
    simp only [Function.comp_apply, mergeMap_cls]
  rw [hpred]
  rw [findHandler] at e1
  rw [e1]
  simp only [Option.map_some']
  rw [hcls, e2]
  rfl

/-- Claim C5: merging a second registry into a first appends the rules of
the second after the rules of the first within each handler class; after
the merge an element matched by rules of both registries resolves to a
rule of the second, and an element matched by no rule of the second
resolves exactly as it did before the merge. -/
theorem registry_merge_cascade :
    ∀ (r1 r2 : Registry) (c : HandlerClass) (h1 h2 : Handler)
      (t : TopGraph) (e : List Nat),
      findHandler r1 c = some h1 → findHandler r2 c = some h2 →
      findHandler (mergeRegistry r1 r2) c = some (mergeHandlers h1 h2)
      ∧ (mergeHandlers h1 h2).rules = h1.rules ++ h2.rules
      ∧ ((∃ r ∈ h2.rules, ruleMatches t r e = true) →
          resolve t e (mergeHandlers h1 h2).rules = resolve t e h2.rules
          ∧ ∃ w, resolve t e (mergeHandlers h1 h2).rules = some w ∧ w ∈ h2.rules)
      ∧ ((∀ r ∈ h2.rules, ruleMatches t r e = false) →
          resolve t e (mergeHandlers h1 h2).rules = resolve t e h1.rules) := by
  intro r1 r2 c h1 h2 t e e1 e2
  refine ⟨findHandler_merge r1 r2 c h1 h2 e1 e2, rfl, ?_, ?_⟩
  · rintro ⟨r0, hmem, hmatch⟩
    have hfil : r0 ∈ h2.rules.filter (fun r => ruleMatches t r e) :=
      List.mem_filter.mpr ⟨hmem, by rw [hmatch]⟩
    have hne : h2.rules.filter (fun r => ruleMatches t r e) ≠ [] := by
      intro hnil; rw [hnil] at hfil; exact List.not_mem_nil r0 hfil
    obtain ⟨w, hw⟩ := Option.isSome_iff_exists.mp
      ((List.getLast?_isSome).mpr hne)
    have hmerged : resolve t e (mergeHandlers h1 h2).rules = some w := by
      rw [resolve_eq_getLast]
      show ((h1.rules ++ h2.rules).filter (fun r => ruleMatches t r e)).getLast? = some w
      rw [List.filter_append, List.getLast?_append, hw]
      rfl
    refine ⟨?_, w, hmerged, ?_⟩
    · rw [hmerged, resolve_eq_getLast, hw]
    · have : w ∈ h2.rules.filter (fun r => ruleMatches t r e) :=
        List.mem_of_mem_getLast? (by rw [hw]; rfl)
      exact (List.mem_filter.mp this).1
  · intro hnone
    have hfil : h2.rules.filter (fun r => ruleMatches t r e) = [] :=
      List.filter_eq_nil_iff.mpr (by
        intro r hr
        rw [hnone r hr]
        exact Bool.false_ne_true)
    rw [resolve_eq_getLast, resolve_eq_getLast]
    show ((h1.rules ++ h2.rules).filter (fun r => ruleMatches t r e)).getLast? = _
    rw [List.filter_append, hfil, List.append_nil]

/-- First registry of the merge witness, holding only the generic vdW
rule n1. -/
def hv1 : Handler := ⟨.vdW, [n1R], 0, 0, 1 / 2, 1⟩

/-- Second registry handler of the merge witness, holding only the
overriding vdW rule n11. -/
def hv2 : Handler := ⟨.vdW, [n11R], 0, 0, 1 / 2, 1⟩

/-- Registry holding hv1. -/
def reg1 : Registry := ⟨[hv1]⟩

/-- Registry holding hv2. -/
def reg2 : Registry := ⟨[hv2]⟩

/-- Witness for claim C5 over methylamine: the nitrogen-bound hydrogen 5
is matched by rules of both registries and resolves to the rule of the
second after the merge, while the carbon-bound hydrogen 2 is matched only
by the first registry and resolves as before the merge. -/
theorem registry_merge_cascade_witness :
    resolve ch3nh2 [5] (mergeHandlers hv1 hv2).rules = resolve ch3nh2 [5] hv2.rules
    ∧ resolve ch3nh2 [2] (mergeHandlers hv1 hv2).rules = resolve ch3nh2 [2] hv1.rules :=
  ⟨((registry_merge_cascade reg1 reg2 .vdW hv1 hv2 ch3nh2 [5] rfl rfl).2.2.1
      ⟨n11R, List.Mem.head _, by decide⟩).1,
   (registry_merge_cascade reg1 reg2 .vdW hv1 hv2 ch3nh2 [2] rfl rfl).2.2.2
      (by
        intro r hr
        have hr2 : r = n11R := List.mem_singleton.mp hr
        subst hr2
        decide)⟩

lemma assignElems_mandatory_error (t : TopGraph) (cls : HandlerClass)
    (rules : List Rule) (hm : mandatory cls = true) :
    ∀ elems : List (List Nat), (∃ e ∈ elems, resolve t e rules = none) →
      ∃ e', e' ∈ elems ∧ resolve t e' rules = none ∧
        assignElems t cls rules elems = .error (.unassigned cls e') := by
  intro elems
  induction elems with
  | nil => rintro ⟨e, he, -⟩; exact absurd he (List.not_mem_nil e)
  | cons e0 rest ih =>
    rintro ⟨e, he, hnone⟩
    cases hres : resolve t e0 rules with
    | none =>
      refine ⟨e0, List.Mem.head _, hres, ?_⟩
      simp only [assignElems, hres, hm, if_true]
    | some r =>
      have hne : e ≠ e0 := by
        intro hEq; subst hEq; rw [hnone] at hres; exact Option.noConfusion hres
      have hrest : e ∈ rest := by
        cases he with
        | head => exact absurd rfl hne
        | tail _ h => exact h
      obtain ⟨e', he', hnone', herr⟩ := ih ⟨e, hrest, hnone⟩
      refine ⟨e', List.Mem.tail _ he', hnone', ?_⟩
      simp only [assignElems, hres, herr, Except.map]

lemma assignElems_optional (t : TopGraph) (cls : HandlerClass)
    (rules : List Rule) (hm : mandatory cls = false) :
    ∀ elems : List (List Nat),
      ∃ out, assignElems t cls rules elems = .ok out
        ∧ (∀ e ∈ elems, resolve t e rules = none → ∀ pr ∈ out, pr.1 ≠ e)
        ∧ (∀ pr ∈ out, resolve t pr.1 rules = some pr.2) := by
  intro elems
  induction elems with
  | nil => exact ⟨[], rfl, by intro e he; exact absurd he (List.not_mem_nil e),
      by intro pr hpr; exact absurd hpr (List.not_mem_nil pr)⟩
  | cons e0 rest ih =>
    obtain ⟨out, hout, hskip, hprov⟩ := ih
    cases hres : resolve t e0 rules with
    | none =>
      refine ⟨out, ?_, ?_, hprov⟩
      · simp only [assignElems, hres, hm, if_false]
        exact hout
      · intro e he hnone pr hpr
        cases he with
        | head =>
          intro hEq
          have hp2 := hprov pr hpr
          rw [hEq, hres] at hp2
          exact Option.noConfusion hp2
        | tail _ h => exact hskip e h hnone pr hpr
    | some r =>
      refine ⟨(e0, r) :: out, ?_, ?_, ?_⟩
      · simp only [assignElems, hres, hout, Except.map]
      · intro e he hnone pr hpr
        have hne0 : e ≠ e0 := by
          intro hEq; subst hEq; rw [hnone] at hres; exact Option.noConfusion hres
        cases hpr with
        | head => exact fun hEq => hne0 (hEq ▸ rfl)
        | tail _ h =>
          cases he with
          | head => exact fun hEq => hne0 rfl
          | tail _ h2 => exact hskip e h2 hnone pr h
      · intro pr hpr
        cases hpr with
        | head => exact hres
        | tail _ h => exact hprov pr h

lemma engineRaw_error (tc : TopGraph) :
    ∀ hs : List Handler, (∃ h ∈ hs, isOkE (assignHandler tc h) = false) →
      isOkE (engineRaw tc hs) = false := by
  intro hs
  induction hs with
  | nil => rintro ⟨h, hmem, -⟩; exact absurd hmem (List.not_mem_nil h)
  | cons h0 rest ih =>
    rintro ⟨h, hmem, hbad⟩
    cases hres : assignHandler tc h0 with
    | error e => simp only [engineRaw, hres, isOkE]
    | ok out =>
      have hrest : h ∈ rest := by
        cases hmem with
        | head => rw [hres] at hbad; exact absurd hbad (by simp [isOkE])
        | tail _ hmem2 => exact hmem2
      have := ih ⟨h, hrest, hbad⟩
      simp only [engineRaw, hres]
      cases hrec : engineRaw tc rest with
      | error e2 => simp only [Except.map, isOkE]
      | ok l => rw [hrec] at this; exact absurd this (by simp [isOkE])

/-- Claim C2: a mandatory handler (bond, angle, vdW) with zero matching
rules for some structural element makes assignment fail with a coverage
error naming the atom indices of an unmatched element, and never emits a
default parameter for it; the optional improper-torsion handler instead
skips unmatched elements silently and always succeeds, and every emitted
assignment is a genuine match.  A failing handler makes the whole engine
fail. -/
theorem coverage_mandatory_fails_optional_silent :
    (∀ (t : TopGraph) (h : Handler),
      mandatory h.cls = true →
      (∃ e ∈ elementsFor h.cls t, resolve t e h.rules = none) →
      ∃ e', e' ∈ elementsFor h.cls t ∧ resolve t e' h.rules = none ∧
        assignHandler t h = .error (.unassigned h.cls e'))
    ∧ (∀ (t : TopGraph) (h : Handler),
      mandatory h.cls = false →
      ∃ out, assignHandler t h = .ok out
        ∧ (∀ e ∈ elementsFor h.cls t, resolve t e h.rules = none →
            ∀ pr ∈ out, pr.1 ≠ e)
        ∧ (∀ pr ∈ out, resolve t pr.1 h.rules = some pr.2))
    ∧ (mandatory .bonds = true ∧ mandatory .angles = true ∧
        mandatory .vdW = true ∧ mandatory .improperTorsions = false)
    ∧ (∀ (tc : TopGraph) (hs : List Handler),
      (∃ h ∈ hs, isOkE (assignHandler tc h) = false) →
      isOkE (engineRaw tc hs) = false)
    ∧ (∀ (t : TopGraph) (r : Registry),
      assignEngine t r = engineRaw (canonTop t) r.handlers) := by
  refine ⟨?_, ?_, ⟨rfl, rfl, rfl, rfl⟩, engineRaw_error, fun t r => rfl⟩
  · intro t h hm hex
    exact assignElems_mandatory_error t h.cls h.rules hm (elementsFor h.cls t) hex
  · intro t h hm
    exact assignElems_optional t h.cls h.rules hm (elementsFor h.cls t)

/-- vdW handler holding the three bundled vdW rules, which cover hydrogen
and nitrogen but not carbon. -/
def hvAll : Handler := ⟨.vdW, [n1R, n11R, n20R], 0, 0, 1 / 2, 1⟩

/-- Improper-torsion handler with no rules at all. -/
def hImp : Handler := ⟨.improperTorsions, [], 0, 0, 1 / 2, 1⟩

/-- Witness for claim C2 over methylamine: the carbon atom 0 matches no
bundled vdW rule, so the mandatory vdW handler fails with a coverage
error naming an uncovered atom; the optional improper handler with no
rules succeeds silently; and the failing vdW handler makes the engine
loop fail. -/
theorem coverage_mandatory_fails_optional_silent_witness :
    (∃ e', e' ∈ elementsFor .vdW ch3nh2 ∧ resolve ch3nh2 e' hvAll.rules = none ∧
      assignHandler ch3nh2 hvAll = .error (.unassigned .vdW e'))
    ∧ (∃ out, assignHandler ch3nh2 hImp = .ok out
        ∧ (∀ e ∈ elementsFor .improperTorsions ch3nh2,
            resolve ch3nh2 e hImp.rules = none → ∀ pr ∈ out, pr.1 ≠ e)
        ∧ (∀ pr ∈ out, resolve ch3nh2 pr.1 hImp.rules = some pr.2))
    ∧ isOkE (engineRaw ch3nh2 [hvAll]) = false :=
  ⟨coverage_mandatory_fails_optional_silent.1 ch3nh2 hvAll rfl ⟨[0], by decide, rfl⟩,
   coverage_mandatory_fails_optional_silent.2.1 ch3nh2 hImp rfl,
   coverage_mandatory_fails_optional_silent.2.2.2.1 ch3nh2 [hvAll]
     ⟨hvAll, List.Mem.head _, by rfl⟩⟩

lemma bondKey_inj : ∀ b1 b2 : Bond, bondKey b1 = bondKey b2 → b1 = b2 := by
  intro b1 b2 h
  cases b1 with
  | mk a1 x1 o1 r1 =>
    cases b2 with
    | mk a2 x2 o2 r2 =>
      simp only [bondKey, Nat.pair_eq_pair] at h
      obtain ⟨h1, h2, h3, h4⟩ := h
      have hr : r1 = r2 := by
        cases r1 <;> cases r2 <;> simp_all
      subst h1; subst h2; subst h3; subst hr
      rfl

lemma bondLe_trans : ∀ a b c : Bond,
    bondLe a b = true → bondLe b c = true → bondLe a c = true := by
  intro a b c h1 h2
  simp only [bondLe, decide_eq_true_eq] at *
  omega

lemma bondLe_total : ∀ a b : Bond, (bondLe a b || bondLe b a) = true := by
  intro a b
  simp only [bondLe, Bool.or_eq_true, decide_eq_true_eq]
  omega

instance : IsAntisymm Bond (fun b1 b2 => bondLe b1 b2 = true) := by
  constructor
  intro a b h1 h2
  simp only [bondLe, decide_eq_true_eq] at h1 h2
  exact bondKey_inj a b (Nat.le_antisymm h1 h2)

lemma canon_perm_eq (l1 l2 : List Bond) (hp : l1.Perm l2) :
    l1.mergeSort bondLe = l2.mergeSort bondLe :=
  List.eq_of_perm_of_sorted
    ((List.mergeSort_perm l1 _).trans (hp.trans (List.mergeSort_perm l2 _).symm))
    (List.sorted_mergeSort bondLe_trans bondLe_total l1)
    (List.sorted_mergeSort bondLe_trans bondLe_total l2)

/-- Claim C3: the Assignment Engine is deterministic; two invocations on
the same topology and registry give the same Resolved Parameter
Assignment, and the output does not depend on the iteration order of the
bond storage: topologies with the same atoms whose bond lists are
permutations of one another assign identically, because every enumeration
follows the canonical atom index order. -/
theorem engine_deterministic :
    (∀ (t : TopGraph) (r : Registry) (a1 a2 : Except AssignError EngineOut),
      assignEngine t r = a1 → assignEngine t r = a2 → a1 = a2)
    ∧ (∀ (t t' : TopGraph) (r : Registry),
      t.atoms = t'.atoms → t.bonds.Perm t'.bonds →
      assignEngine t r = assignEngine t' r) := by
  constructor
  · intro t r a1 a2 h1 h2
    rw [← h1, ← h2]
  · intro t t' r hA hP
    have hc : canonTop t = canonTop t' := by
      rw [canonTop, canonTop, hA, canon_perm_eq t.bonds t'.bonds hP]
    rw [assignEngine, assignEngine, hc]

/-- Methylamine with its bond list stored in the reverse order. -/
def ch3nh2r : TopGraph := ⟨ch3nh2.atoms, ch3nh2.bonds.reverse⟩

/-- Registry holding the bundled vdW rules only. -/
def regV : Registry := ⟨[hvAll]⟩

/-- Witness for claim C3: reversing the stored bond list of methylamine
does not change the assignment of the bundled vdW registry. -/
theorem engine_deterministic_witness :
    assignEngine ch3nh2 regV = assignEngine ch3nh2r regV :=
  engine_deterministic.2 ch3nh2 ch3nh2r regV rfl (List.reverse_perm ch3nh2.bonds).symm

lemma engineLoopS_frame (tc : TopGraph) (t : TopGraph) (r : Registry) :
    ∀ hs : List Handler, engineLoopS tc t r hs = (engineRaw tc hs, t, r) := by
  intro hs
  induction hs with
  | nil => rfl
  | cons h0 rest ih =>
    simp only [engineLoopS, engineRaw]
    cases assignHandler tc h0 with
    | error e => rfl
    | ok out => rw [ih]

/-- Claim C8: the Assignment Engine leaves both caller-owned inputs
unchanged: threading the topology and the registry through the engine as
explicit state returns them exactly as passed, and the result is a pure
function of the two inputs alone. -/
theorem engine_pure_frame :
    ∀ (t : TopGraph) (r : Registry),
      (assignEngineS t r).2.1 = t ∧ (assignEngineS t r).2.2 = r ∧
      (assignEngineS t r).1 = assignEngine t r := by
  intro t r
  rw [assignEngineS, engineLoopS_frame]
  exact ⟨rfl, rfl, rfl⟩

/-- Claim C4: a nonbonded handler scales an atom pair by the
handler-scoped factor selected by the shortest-path-in-bonds distance:
one bond gives the 1-2 factor, two bonds the 1-3 factor, three bonds the
1-4 factor, four bonds the 1-5 factor, and any larger separation,
including six bonds and beyond five bonds, is not scaled at all. -/
theorem nonbonded_scale_by_distance :
    ∀ (h : Handler) (t : TopGraph) (x y : Nat),
      (bondDist t x y = some 1 → pairScale h t x y = h.scale12)
      ∧ (bondDist t x y = some 2 → pairScale h t x y = h.scale13)
      ∧ (bondDist t x y = some 3 → pairScale h t x y = h.scale14)
      ∧ (bondDist t x y = some 4 → pairScale h t x y = h.scale15)
      ∧ (∀ d, bondDist t x y = some d → 4 < d → pairScale h t x y = 1)
      ∧ (bondDist t x y = some 6 → pairScale h t x y = 1) := by
  intro h t x y
  refine ⟨?_, ?_, ?_, ?_, ?_, ?_⟩
  · intro hd; simp only [pairScale, hd]
  · intro hd; simp only [pairScale, hd]
  · intro hd; simp only [pairScale, hd]
  · intro hd; simp only [pairScale, hd]
  · intro d hd hgt
    obtain ⟨k, rfl⟩ : ∃ k, d = k + 5 := ⟨d - 5, by omega⟩
    simp only [pairScale, hd]
  · intro hd; simp only [pairScale, hd]

/-- Nonbonded handler with pairwise-distinct scale factors. -/
def hSc : Handler := ⟨.vdW, [], 1 / 10, 1 / 4, 1 / 2, 9 / 10⟩

/-- Witness for claim C4 on the seven-carbon chain: atoms 0 and 3 are
three bonds apart and take the 1-4 factor, which differs from 1 and from
the 1-3 factor; atoms 0 and 6 are six bonds apart and take scale 1; atoms
0 and 1 are one bond apart and take the 1-2 factor. -/
theorem nonbonded_scale_by_distance_witness :
    pairScale hSc chain7 0 3 = hSc.scale14
    ∧ hSc.scale14 ≠ 1 ∧ hSc.scale14 ≠ hSc.scale13
    ∧ pairScale hSc chain7 0 6 = 1
    ∧ pairScale hSc chain7 0 1 = hSc.scale12 :=
  ⟨(nonbonded_scale_by_distance hSc chain7 0 3).2.2.1 (by decide),
   by norm_num [hSc],
   by norm_num [hSc],
   (nonbonded_scale_by_distance hSc chain7 0 6).2.2.2.2.2 (by decide),
   (nonbonded_scale_by_distance hSc chain7 0 1).1 (by decide)⟩

lemma isOkE_false_iff {ε α : Type} (x : Except ε α) :
    isOkE x = false ↔ ∃ e, x = .error e := by
  cases x with
  | error e => simp [isOkE]
  | ok a => simp [isOkE]

lemma checkSection_tag_err (env : List (String × RawPat)) (s : RawSection)
    (h : s.openTag ≠ s.closeTag) : isOkE (checkSection env s) = false := by
  have hb : (s.openTag != s.closeTag) = true := bne_iff_ne.mpr h
  simp only [checkSection, hb, if_true, isOkE]

lemma checkSection_dup_err (env : List (String × RawPat)) (s : RawSection)
    (h : distinctStrs (s.entries.map (fun e => e.ident)) = false) :
    isOkE (checkSection env s) = false := by
  rw [checkSection]
  cases htag : (s.openTag != s.closeTag) with
  | true => simp only [if_true, isOkE]
  | false =>
    simp only [Bool.false_eq_true, if_false]
    cases hcls : classOfTag s.openTag with
    | none => simp only [isOkE]
    | some cls => simp only [h, Bool.not_false, if_true, isOkE]

lemma checkSection_units_err (env : List (String × RawPat)) (s : RawSection)
    (h : distinctStrs (s.units.map (fun pr => pr.1)) = false) :
    isOkE (checkSection env s) = false := by
  rw [checkSection]
  cases htag : (s.openTag != s.closeTag) with
  | true => simp only [if_true, isOkE]
  | false =>
    simp only [Bool.false_eq_true, if_false]
    cases hcls : classOfTag s.openTag with
    | none => simp only [isOkE]
    | some cls =>
      cases hdup : distinctStrs (s.entries.map (fun e => e.ident)) with
      | false => simp only [hdup, Bool.not_false, if_true, isOkE]
      | true => simp only [hdup, Bool.not_true, Bool.false_eq_true, if_false,
          h, Bool.not_false, if_true, isOkE]

lemma loadSections_err (env : List (String × RawPat)) :
    ∀ ss : List RawSection, (∃ s ∈ ss, isOkE (checkSection env s) = false) →
      isOkE (loadSections env ss) = false := by
  intro ss
  induction ss with
  | nil => rintro ⟨s, hmem, -⟩; exact absurd hmem (List.not_mem_nil s)
  | cons s0 rest ih =>
    rintro ⟨s, hmem, hbad⟩
    cases hres : checkSection env s0 with
    | error e => simp only [loadSections, hres, isOkE]
    | ok h0 =>
      have hrest : s ∈ rest := by
        cases hmem with
        | head => rw [hres] at hbad; exact absurd hbad (by simp [isOkE])
        | tail _ hmem2 => exact hmem2
      have hrec := ih ⟨s, hrest, hbad⟩
      obtain ⟨e, he⟩ := (isOkE_false_iff _).mp hrec
      simp only [loadSections, hres, he, Except.map, isOkE]

lemma loadDocument_sections_err (d : RawDoc)
    (h : isOkE (loadSections d.env d.sections) = false) :
    isOkE (loadDocument d) = false := by
  rw [loadDocument]
  cases hv : !(supportedVersions.contains d.version) with
  | true => simp only [if_true, isOkE]
  | false =>
    simp only [Bool.false_eq_true, if_false]
    cases hce : checkEnv d.env d.env with
    | error e => simp only [isOkE]
    | ok u =>
      obtain ⟨e, he⟩ := (isOkE_false_iff _).mp h
      simp only [he, isOkE]

/-- Claim C6: a malformed rule document is rejected as a whole: a section
whose closing tag differs from its opening tag, an unsupported document
version, duplicate rule identifiers within a section, or inconsistent
unit declarations each make the load fail, and a failed load produces no
registry at all; in particular the bundled test document, whose
ImproperTorsions section is closed by a misspelled tag, is rejected with
a tag mismatch error. -/
theorem malformed_document_rejected :
    (∀ (d : RawDoc) (s : RawSection), s ∈ d.sections →
      s.openTag ≠ s.closeTag → isOkE (loadDocument d) = false)
    ∧ (∀ d : RawDoc, supportedVersions.contains d.version = false →
      isOkE (loadDocument d) = false)
    ∧ (∀ (d : RawDoc) (s : RawSection), s ∈ d.sections →
      distinctStrs (s.entries.map (fun e => e.ident)) = false →
      isOkE (loadDocument d) = false)
    ∧ (∀ (d : RawDoc) (s : RawSection), s ∈ d.sections →
      distinctStrs (s.units.map (fun pr => pr.1)) = false →
      isOkE (loadDocument d) = false)
    ∧ loadDocument bundledDoc = .error (.tagMismatch "ImproperTorsions")
    ∧ (∀ (d : RawDoc) (reg : Registry), isOkE (loadDocument d) = false →
      loadDocument d ≠ .ok reg) := by
  refine ⟨?_, ?_, ?_, ?_, rfl, ?_⟩
  · intro d s hs htag
    exact loadDocument_sections_err d
      (loadSections_err d.env d.sections ⟨s, hs, checkSection_tag_err d.env s htag⟩)
  · intro d hv
    rw [loadDocument, hv]
    simp only [Bool.not_false, if_true, isOkE]
  · intro d s hs hdup
    exact loadDocument_sections_err d
      (loadSections_err d.env d.sections ⟨s, hs, checkSection_dup_err d.env s hdup⟩)
  · intro d s hs hunits
    exact loadDocument_sections_err d
      (loadSections_err d.env d.sections ⟨s, hs, checkSection_units_err d.env s hunits⟩)
  · intro d reg hbad hok
    rw [hok] at hbad
    exact absurd hbad (by simp [isOkE])

/-- A document with an unsupported version. -/
def badVerDoc : RawDoc := ⟨"9.9", [], []⟩

/-- A document whose Bonds section declares the identifier b86 twice. -/
def dupDoc : RawDoc :=
  ⟨"0.2", [],
   [⟨"Bonds", "Bonds", [("length_unit", "angstroms")], [],
     [⟨"b86", rawOf patB86, [("k", 868)]⟩,
      ⟨"b86", rawOf patB86, [("k", 868)]⟩]⟩]⟩

/-- A document whose Bonds section declares the same unit kind twice with
different values. -/
def unitsDoc : RawDoc :=
  ⟨"0.2", [],
   [⟨"Bonds", "Bonds", [("k_unit", "a"), ("k_unit", "b")], [], []⟩]⟩

/-- Witness for claim C6: the bundled document with its misspelled
ImproperTosions closing tag fails to load, as do documents with an
unsupported version, a duplicate rule identifier, or conflicting unit
declarations, and the rejected bundled document yields no registry. -/
theorem malformed_document_rejected_witness :
    isOkE (loadDocument bundledDoc) = false
    ∧ isOkE (loadDocument badVerDoc) = false
    ∧ isOkE (loadDocument dupDoc) = false
    ∧ isOkE (loadDocument unitsDoc) = false
    ∧ loadDocument bundledDoc ≠ .ok ⟨[]⟩ :=
  ⟨malformed_document_rejected.1 bundledDoc improperSec
      (List.Mem.tail _ (List.Mem.tail _ (List.Mem.head _))) (by decide),
   malformed_document_rejected.2.1 badVerDoc (by decide),
   malformed_document_rejected.2.2.1 dupDoc _ (List.Mem.head _) (by decide),
   malformed_document_rejected.2.2.2.1 unitsDoc _ (List.Mem.head _) (by decide),
   malformed_document_rejected.2.2.2.2.2 bundledDoc ⟨[]⟩
     (malformed_document_rejected.1 bundledDoc improperSec
       (List.Mem.tail _ (List.Mem.tail _ (List.Mem.head _))) (by decide))⟩

/-- Atom query alternatives of the root node of a pattern. -/
def rootAlts : Pat → List AtomAlt
  | .node _ alts _ _ _ => alts

lemma atomPass_impossible (t : TopGraph) (alts : List AtomAlt) (a : Nat)
    (hyp : ∀ alt ∈ alts, ∃ e, alt.elem = some e ∧
      e ∉ t.atoms.map (fun at1 => at1.element)) :
    atomPass t alts a = false := by
  rw [atomPass, List.any_eq_false]
  intro alt halt
  obtain ⟨e, helem, hnot⟩ := hyp alt halt
  rw [altPass]
  cases hga : t.atoms.get? a with
  | none => simp
  | some at1 =>
    have hmem : at1 ∈ t.atoms := List.get?_mem hga
    have hne : (at1.element == e) = false := by
      rw [beq_eq_false_iff_ne]
      intro hEq
      exact hnot (hEq ▸ List.mem_map_of_mem (fun at2 => at2.element) hmem)
    simp only [helem, hne]
    simp

/-- Claim C7: when no embedding of a pattern exists because the element
requirements of the pattern cannot be met by the graph, the Pattern
Matcher returns the empty match set; matching is a total function into
match lists, so an impossible match is never an error condition. -/
theorem matcher_impossible_empty :
    ∀ (p : Pat) (t : TopGraph),
      (∀ alt ∈ rootAlts p, ∃ e, alt.elem = some e ∧
        e ∉ t.atoms.map (fun at1 => at1.element)) →
      findMatches p t = [] := by
  intro p t hyp
  cases p with
  | node q alts tg recs ch =>
    rw [findMatches]
    have hall : ∀ a ∈ List.range (atomCount t),
        matchPat t (.node q alts tg recs ch) a [] = [] := by
      intro a _
      rw [matchPat]
      rw [atomPass_impossible t alts a hyp]
      simp
    rw [List.flatMap_eq_nil_iff.mpr hall]
    rfl

/-- A pattern requiring an oxygen atom, written [#8:1]. -/
def patO : Pat := .node anyB [altE 8] true .pnil .pnil

/-- Witness for claim C7: methylamine contains no oxygen, so the oxygen
pattern has the empty match set. -/
theorem matcher_impossible_empty_witness :
    findMatches patO ch3nh2 = [] :=
  matcher_impossible_empty patO ch3nh2 (by
    intro alt halt
    have h2 : alt = altE 8 := List.mem_singleton.mp halt
    subst h2
    exact ⟨8, rfl, by decide⟩)

/-- Claim C10: a vdW rule entry may declare its distance parameter as
either sigma or rmin half, and the loader accepts a document whose vdW
rules use rmin half, storing the declared convention and converting both
conventions to one consistent downstream distance parameter (the sixth
power of sigma, which keeps the irrational factor 2 ^ (1 / 6) exact:
r0 = 2 ^ (1 / 6) * sigma is r0 ^ 6 = 2 * sigma ^ 6 in sixth powers, and
r0 = 2 * rminHalf gives sigma ^ 6 = 32 * rminHalf ^ 6). -/
theorem vdw_distance_conventions :
    loadedDists vdwDoc = some [some (.rminHalf (3 / 5)), some (.rminHalf (3 / 5)),
      some (.rminHalf (228 / 125))]
    ∧ (∀ s : ℚ, mkVdwDist "x" [("sigma", s)] = .ok (.sigma s))
    ∧ (∀ q : ℚ, mkVdwDist "x" [("rmin_half", q)] = .ok (.rminHalf q))
    ∧ (∀ s : ℚ, sigma6Of (.sigma s) = s ^ 6)
    ∧ (∀ q : ℚ, sigma6Of (.rminHalf q) = 32 * q ^ 6 ∧
        (2 * q) ^ 6 = 2 * sigma6Of (.rminHalf q)) :=
  ⟨rfl, fun s => rfl, fun q => rfl, fun s => rfl,
   fun q => ⟨rfl, by rw [sigma6Of]; ring⟩⟩

lemma mentions_err (env : List (String × RawPat)) : ∀ fuel : Nat,
    (∀ (rp : RawPat) (seen : List String) (name : String), name ∈ seen →
      mentions rp name = true → isOkE (resolveRawF env fuel seen rp) = false)
    ∧ (∀ (ps : RawPatList) (seen : List String) (name : String), name ∈ seen →
      mentionsL ps name = true → isOkE (resolveListF env fuel seen ps) = false) := by
  intro fuel
  induction fuel with
  | zero =>
    constructor
    · intro rp seen name _ _; rfl
    · intro ps seen name _ _; rfl
  | succ f ih =>
    constructor
    · intro rp seen name hseen hment
      cases rp with
      | ref n =>
        have hn : n = name := by
          rw [mentions] at hment
          exact beq_iff_eq.mp hment
        subst hn
        have hc : seen.contains n = true := List.elem_eq_true_of_mem hseen
        simp only [resolveRawF, hc, if_true, isOkE]
      | node q alts tg recs children =>
        rw [mentions, Bool.or_eq_true] at hment
        rw [resolveRawF]
        cases hment with
        | inl hrecs =>
          obtain ⟨e, he⟩ := (isOkE_false_iff _).mp (ih.2 recs seen name hseen hrecs)
          simp only [he, isOkE]
        | inr hch =>
          cases hr : resolveListF env f seen recs with
          | error e => simp only [isOkE]
          | ok recs2 =>
            obtain ⟨e, he⟩ := (isOkE_false_iff _).mp (ih.2 children seen name hseen hch)
            simp only [he, isOkE]
    · intro ps seen name hseen hment
      cases ps with
      | rnil => rw [mentionsL] at hment; exact absurd hment (by simp)
      | rcons p rest =>
        rw [mentionsL, Bool.or_eq_true] at hment
        rw [resolveListF]
        cases hment with
        | inl hp =>
          obtain ⟨e, he⟩ := (isOkE_false_iff _).mp (ih.1 p seen name hseen hp)
          simp only [he, isOkE]
        | inr hrest =>
          cases hr : resolveRawF env f seen p with
          | error e => simp only [isOkE]
          | ok p2 =>
            obtain ⟨e, he⟩ := (isOkE_false_iff _).mp (ih.2 rest seen name hseen hrest)
            simp only [he, isOkE]

lemma checkEnv_err (env : List (String × RawPat)) :
    ∀ lst : List (String × RawPat),
      (∃ pr ∈ lst, isOkE (resolveRawF env (fuelFor env pr.2) [pr.1] pr.2) = false) →
      isOkE (checkEnv env lst) = false := by
  intro lst
  induction lst with
  | nil => rintro ⟨pr, hmem, -⟩; exact absurd hmem (List.not_mem_nil pr)
  | cons pr0 rest ih =>
    rintro ⟨pr, hmem, hbad⟩
    obtain ⟨n0, rp0⟩ := pr0
    cases hres : resolveRawF env (fuelFor env rp0) [n0] rp0 with
    | error e => simp only [checkEnv, hres, isOkE]
    | ok p2 =>
      have hrest : pr ∈ rest := by
        cases hmem with
        | head => rw [hres] at hbad; exact absurd hbad (by simp [isOkE])
        | tail _ hmem2 => exact hmem2
      simp only [checkEnv, hres]
      exact ih ⟨pr, hrest, hbad⟩

lemma loadDocument_env_err (d : RawDoc)
    (h : isOkE (checkEnv d.env d.env) = false) :
    isOkE (loadDocument d) = false := by
  rw [loadDocument]
  cases hv : !(supportedVersions.contains d.version) with
  | true => simp only [if_true, isOkE]
  | false =>
    simp only [Bool.false_eq_true, if_false]
    obtain ⟨e, he⟩ := (isOkE_false_iff _).mp h
    simp only [he, isOkE]

lemma matchF_adequate_aux (t : TopGraph) : ∀ n : Nat,
    (∀ p : Pat, sizeOf p ≤ n → ∀ fuel : Nat, patNest p ≤ fuel →
      ∀ a used, matchPatF t fuel p a used = matchPat t p a used)
    ∧ (∀ ps : PatList, sizeOf ps ≤ n → ∀ fuel : Nat, 1 + patNestL ps ≤ fuel →
      ∀ a, recsOkF t fuel ps a = recsOk t ps a)
    ∧ (∀ ps : PatList, sizeOf ps ≤ n → ∀ fuel : Nat, patNestL ps ≤ fuel →
      ∀ par cand used,
        matchChildrenF t fuel ps par cand used = matchChildren t ps par cand used) := by
  intro n
  induction n using Nat.strong_induction_on with
  | _ n ih =>
    refine ⟨?_, ?_, ?_⟩
    · intro p hsz fuel hnest a used
      cases p with
      | node q alts tg recs children =>
        have hspec := Pat.node.sizeOf_spec q alts tg recs children
        have hszr : sizeOf recs < n := by omega
        have hszc : sizeOf children < n := by omega
        rw [patNest] at hnest
        obtain ⟨h1, h2⟩ := Nat.max_le.mp hnest
        rw [matchPatF, matchPat]
        rw [(ih (sizeOf recs) hszr).2.1 recs le_rfl fuel h1 a]
        rw [(ih (sizeOf children) hszc).2.2 children le_rfl fuel h2 a (nbrs t a) (a :: used)]
    · intro ps hsz fuel hge a
      cases ps with
      | pnil => rfl
      | pcons p rest =>
        obtain ⟨f, rfl⟩ : ∃ f, fuel = f + 1 := ⟨fuel - 1, by omega⟩
        have hspec := PatList.pcons.sizeOf_spec p rest
        have hszp : sizeOf p < n := by omega
        have hszrest : sizeOf rest < n := by omega
        rw [patNestL] at hge
        have hmax : max (patNest p) (patNestL rest) ≤ f := by omega
        obtain ⟨hp, hrest⟩ := Nat.max_le.mp hmax
        show (!(matchPatF t f p a []).isEmpty && recsOkF t (f + 1) rest a)
          = (!(matchPat t p a []).isEmpty && recsOk t rest a)
        rw [(ih (sizeOf p) hszp).1 p le_rfl f hp a []]
        rw [(ih (sizeOf rest) hszrest).2.1 rest le_rfl (f + 1) (by omega) a]
    · intro ps hsz fuel hnest par cand used
      cases ps with
      | pnil => rfl
      | pcons p rest =>
        have hspec := PatList.pcons.sizeOf_spec p rest
        have hszp : sizeOf p < n := by omega
        have hszrest : sizeOf rest < n := by omega
        rw [patNestL] at hnest
        obtain ⟨hp, hrest⟩ := Nat.max_le.mp hnest
        rw [matchChildrenF, matchChildren]
        congr 1
        funext b
        cases hbb : bondBetween t par b with
        | none => rfl
        | some bd =>
          cases hbp : bondPass p.inBondQ bd with
          | false => simp only [hbp, Bool.false_eq_true, if_false]
          | true =>
            simp only [hbp, if_true]
            rw [(ih (sizeOf p) hszp).1 p le_rfl fuel hp b used]
            congr 1
            funext emb
            rw [(ih (sizeOf rest) hszrest).2.2 rest le_rfl fuel hrest par cand (used ++ emb)]

/-- Claim C9: recursive sub-environment evaluation terminates with depth
bounded by the declared nesting of the pattern: running the matcher with
any depth budget at least the declared nesting gives exactly the
unbounded matcher (which is total by structural recursion); and the
loader rejects, before load completes, any document whose environment
contains a pattern that references itself. -/
theorem matcher_depth_bounded_and_selfref_rejected :
    (∀ (t : TopGraph) (p : Pat) (fuel : Nat), patNest p ≤ fuel →
      ∀ a used, matchPatF t fuel p a used = matchPat t p a used)
    ∧ (∀ (d : RawDoc) (name : String) (rp : RawPat),
      (name, rp) ∈ d.env → mentions rp name = true →
      isOkE (loadDocument d) = false) := by
  constructor
  · intro t p fuel hnest a used
    exact (matchF_adequate_aux t (sizeOf p)).1 p le_rfl fuel hnest a used
  · intro d name rp hmem hment
    apply loadDocument_env_err
    apply checkEnv_err
    refine ⟨(name, rp), hmem, ?_⟩
    exact (mentions_err d.env (fuelFor d.env rp)).1 rp [name] name (List.Mem.head _) hment

/-- A document whose environment binds the name X to a pattern that
references X itself. -/
def selfDoc : RawDoc := ⟨"0.2", [("X", RawPat.ref "X")], []⟩

/-- Witness for claim C9: the depth budget 2 suffices for the bundled
two-level pattern n11, and the self-referencing document selfDoc is
rejected by the loader. -/
theorem matcher_depth_bounded_and_selfref_rejected_witness :
    matchPatF ch3nh2 2 patN11 5 [] = matchPat ch3nh2 patN11 5 []
    ∧ isOkE (loadDocument selfDoc) = false :=
  ⟨matcher_depth_bounded_and_selfref_rejected.1 ch3nh2 patN11 2 (by decide) 5 [],
   matcher_depth_bounded_and_selfref_rejected.2 selfDoc "X" (RawPat.ref "X")
     (List.Mem.head _) (by decide)⟩

end SMIRNOFF
